import Mathlib

set_option maxRecDepth 16384

/-!
Verification of the userscript registry and cross-context bridge of
GeoGuessrDesktop (src-tauri/src/lib.rs), as a shallow embedding in Lean.

Conventions of the embedding:
* Rust strings are modelled as Lean String / List Char.  The regex character
  class \s (with Unicode semantics on the ASCII inputs that occur here) is
  modelled by the predicate isWs below; str::trim is modelled by trimWs.
* The HTTP client is modelled by an oracle net : String -> Except String
  HttpResponse mapping a URL to either a transport-level failure (already
  formatted, matching the reqwest error classification in the source) or a
  response.  Rust u64 timestamps are Nat with explicit wrap-around where the
  source subtracts.
* Mutex-guarded collections are explicit state: functions take and return a
  RegistryState; the &mut HashMap dependency cache is threaded through and
  returned even on error, mirroring that mutations persist when a Rust
  function returns Err.
-/

/-- Regex whitespace class \s, restricted to the ASCII whitespace characters
(the Rust regex crate uses Unicode White_Space; on the ASCII script texts
modelled here the two coincide). -/
def isWs (c : Char) : Bool :=
  c = ' ' || c = '\t' || c = '\n' || c = '\r' || c = '\x0b' || c = '\x0c'

/-- Strip a literal off the front of a character list, returning the rest when
the literal is a leading segment and none otherwise.  Models matching a fixed
literal fragment of a regex at the current position. -/
def dropLit? : List Char → List Char → Option (List Char)
  | [], s => some s
  | _ :: _, [] => none
  | p :: ps, c :: cs => if p = c then dropLit? ps cs else none

/-- Model of str::trim (whitespace removed from both ends). -/
def trimWs (s : List Char) : List Char :=
  ((s.dropWhile isWs).reverse.dropWhile isWs).reverse

/-- Whether the needle occurs as a contiguous segment of the haystack.  Models
str::contains with a literal pattern (used for the content-type check). -/
def containsSeg (hay needle : List Char) : Bool :=
  match hay with
  | [] => (dropLit? needle []).isSome
  | _ :: rest => (dropLit? needle hay).isSome || containsSeg rest needle

/-- Match the marker pattern of the header-block regex at the current
position: a literal // then \s* then the given marker literal.  The marker
literals start with a non-whitespace character, so the greedy \s* is
equivalent to maximal munch and no backtracking arises.  Returns the suffix
after the marker. -/
def matchMarkerAt (marker : List Char) (s : List Char) : Option (List Char) :=
  match dropLit? ['/', '/'] s with
  | none => none
  | some s1 => dropLit? marker (s1.dropWhile isWs)

/-- Open marker literal of the header-block regex. -/
def openMarker : List Char := "==UserScript==".data

/-- Close marker literal of the header-block regex. -/
def closeMarker : List Char := "==/UserScript==".data

/-- Leftmost occurrence of the open marker //\s*==UserScript==; returns the
suffix after it.  Models the search phase of Regex::captures for the block
regex (?s)//\s*==UserScript==(.*?)//\s*==/UserScript==. -/
def findOpen : List Char → Option (List Char)
  | [] => none
  | c :: rest =>
    match matchMarkerAt openMarker (c :: rest) with
    | some t => some t
    | none => findOpen rest

/-- The non-greedy capture (.*?) of the block regex: everything up to the
earliest position at which the close marker matches; none when no close
marker follows (then the block regex does not match at all: no later open
marker can help, because a close marker after a later open is also after the
first one, and no open marker starts inside another). -/
def grabBlock : List Char → Option (List Char)
  | [] => none
  | c :: rest =>
    if (matchMarkerAt closeMarker (c :: rest)).isSome then some []
    else
      match grabBlock rest with
      | some b => some (c :: b)
      | none => none

/-- Match the single-value directive regex key\s+(.+) at the current
position, returning the captured value after the str::trim applied by the
source.  The \s+ is greedy; after a maximal whitespace run either a
non-whitespace (hence non-newline) character follows and (.+) captures up to
the end of the line, or the input ends inside the run and the regex engine
backtracks \s+ so that (.+) starts on a whitespace character other than a
newline ((.) does not match newlines) - the capture is then all whitespace
and trims to the empty string. -/
def matchDirectiveAt (key : List Char) (s : List Char) : Option String :=
  match dropLit? key s with
  | none => none
  | some s1 =>
    match s1 with
    | [] => none
    | c :: _ =>
      if isWs c then
        match s1.dropWhile isWs with
        | d :: ds =>
          some (String.mk (trimWs (List.takeWhile (fun x => ¬ (x = '\n')) (d :: ds))))
        | [] =>
          if ((s1.takeWhile isWs).drop 1).any (fun x => ¬ (x = '\n')) then
            some ""
          else none
      else none

/-- Leftmost-first search for the single-value directive regex key\s+(.+)
inside the header block: the first position at which the whole pattern
matches yields the (trimmed) capture.  Models Regex::captures for the
name/version/description/author directives. -/
def findDirective (key : List Char) : List Char → Option String
  | [] => none
  | c :: rest =>
    match matchDirectiveAt key (c :: rest) with
    | some v => some v
    | none => findDirective key rest

/-- Match the dependency directive regex @require\s+(https?://\S+) at the
current position.  Returns the captured URL (after the str::trim applied by
the source, a no-op on a capture that contains no whitespace) and the suffix
after the whole match.  The \s+ is greedy and needs no backtracking because
the capture starts with the non-whitespace character h; the alternation
https?:// is deterministic because the two literals are mutually
exclusive; \S+ is greedy maximal. -/
def matchRequireAt (s : List Char) : Option (String × List Char) :=
  match dropLit? "@require".data s with
  | none => none
  | some s1 =>
    match s1 with
    | [] => none
    | c :: _ =>
      if isWs c then
        let s2 := s1.dropWhile isWs
        match dropLit? "https://".data s2 with
        | some s3 =>
          let tail := s3.takeWhile (fun x => ¬ isWs x)
          if tail.isEmpty then none
          else some (String.mk (trimWs ("https://".data ++ tail)),
                     s3.dropWhile (fun x => ¬ isWs x))
        | none =>
          match dropLit? "http://".data s2 with
          | some s3 =>
            let tail := s3.takeWhile (fun x => ¬ isWs x)
            if tail.isEmpty then none
            else some (String.mk (trimWs ("http://".data ++ tail)),
                       s3.dropWhile (fun x => ¬ isWs x))
          | none => none
      else none

/-- Fuel-indexed scan for Regex::captures_iter of the @require regex:
successive non-overlapping leftmost matches, each search resuming after the
end of the previous match.  The fuel is an upper bound on the scan steps;
scanRequires below supplies the length of the input, which suffices because
every match consumes at least one character (see matchRequireAt_length). -/
def scanRequiresFuel : Nat → List Char → List String
  | 0, _ => []
  | _ + 1, [] => []
  | fuel + 1, c :: rest =>
    match matchRequireAt (c :: rest) with
    | some (url, after) => url :: scanRequiresFuel fuel after
    | none => scanRequiresFuel fuel rest

/-- All @require captures of the block, in source order, one per match. -/
def scanRequires (s : List Char) : List String :=
  scanRequiresFuel s.length s

/-- Parsed header metadata (struct ScriptMetadata of the source). -/
structure ScriptMetadata where
  name : Option String := none
  version : Option String := none
  description : Option String := none
  author : Option String := none
  requires : List String := []
deriving DecidableEq, Repr

/-- Model of fn parse_metadata: locate the header block between the first
//\s*==UserScript== and the earliest following //\s*==/UserScript==; inside
it take the first match per single-valued directive and every match of the
@require directive in source order.  With no block, everything defaults. -/
def parse_metadata (code : String) : ScriptMetadata :=
  match findOpen code.data with
  | none => {}
  | some afterOpen =>
    match grabBlock afterOpen with
    | none => {}
    | some block =>
      { name := findDirective "@name".data block
        version := findDirective "@version".data block
        description := findDirective "@description".data block
        author := findDirective "@author".data block
        requires := scanRequires block }

/-- Script record (struct UserScript of the source).  The i32 order is Int;
the u64 timestamps are Nat (wrap-around is made explicit at the subtraction
in the auto-updater, the only place the source does u64 arithmetic). -/
structure UserScript where
  id : String
  name : String
  code : String
  enabled : Bool
  order : Int
  url : Option String := none
  version : Option String := none
  description : Option String := none
  author : Option String := none
  requires : List String := []
  last_updated : Option Nat := none
  last_fetch_error : Option String := none
deriving DecidableEq, Repr, Inhabited

/-- Cached dependency record (struct ScriptDependency of the source). -/
structure ScriptDependency where
  url : String
  code : String
  last_updated : Nat
deriving DecidableEq, Repr

/-- The dependency cache HashMap<String, ScriptDependency>, modelled as an
association list with first-match lookup; consing a new binding therefore has
the replace semantics of HashMap::insert.  Its iteration order is never used
by the source. -/
abbrev DepCache := List (String × ScriptDependency)

/-- HashMap::get. -/
def cacheLookup (cache : DepCache) (url : String) : Option ScriptDependency :=
  (cache.find? (fun p => p.1 = url)).map (fun p => p.2)

/-- HashMap::contains_key. -/
def cacheContains (cache : DepCache) (url : String) : Bool :=
  (cacheLookup cache url).isSome

/-- HashMap::insert. -/
def cacheInsert (cache : DepCache) (url : String) (d : ScriptDependency) : DepCache :=
  (url, d) :: cache

/-- An HTTP response as far as fetch_script_from_url inspects one: status
code with reason phrase, optional content-type header value, decoded body
text.  The body length check of the source counts UTF-8 bytes (str::len). -/
structure HttpResponse where
  status : Nat
  statusText : String
  contentType : Option String := none
  body : String
deriving DecidableEq, Repr

/-- The network, as an oracle from URL to transport outcome.  An error is the
already-formatted transport failure message (timeout / connect / other, as
classified by the closure in fetch_script_from_url). -/
abbrev NetOracle := String → Except String HttpResponse

/-- Model of str::starts_with with a literal pattern (used for the HTTPS
check). -/
def startsWithLit (pre s : String) : Bool :=
  (dropLit? pre.data s.data).isSome

/-- Content-type acceptance: when the header is present it must mention
javascript or text/plain; an absent header is accepted. -/
def contentTypeOk : Option String → Bool
  | some ct => containsSeg ct.data "javascript".data || containsSeg ct.data "text/plain".data
  | none => true

/-- Model of fn fetch_script_from_url: HTTPS-only check, transport, status
check, content-type check, then the 10 MiB size check on the body, in the
order of the source. -/
def fetch_script_from_url (net : NetOracle) (url : String) : Except String String :=
  if ¬ startsWithLit "https://" url then
    .error "Only HTTPS URLs are supported for security reasons"
  else
    match net url with
    | .error e => .error e
    | .ok r =>
      if ¬ (200 ≤ r.status ∧ r.status ≤ 299) then
        .error ("HTTP " ++ toString r.status ++ ": " ++ r.statusText)
      else if ¬ contentTypeOk r.contentType then
        .error ("Expected JavaScript, got content-type: " ++ r.contentType.getD "")
      else if r.body.utf8ByteSize > 10 * 1024 * 1024 then
        .error "Script too large (>10MB)"
      else
        .ok r.body

/-- The dependency loop of fn fetch_script_with_dependencies: walk the
declared URLs in order, skip ones already cached, insert each success, stop
at the first failure with a message naming the failing URL.  The cache is
returned in every case: the Rust loop mutates it through &mut, so insertions
made before a failure persist. -/
def fetch_dependencies (net : NetOracle) (now : Nat) :
    List String → DepCache → DepCache × Except String Unit
  | [], cache => (cache, .ok ())
  | depUrl :: rest, cache =>
    if cacheContains cache depUrl then
      fetch_dependencies net now rest cache
    else
      match fetch_script_from_url net depUrl with
      | .ok depCode =>
        fetch_dependencies net now rest
          (cacheInsert cache depUrl { url := depUrl, code := depCode, last_updated := now })
      | .error e => (cache, .error ("Failed to fetch dependency " ++ depUrl ++ ": " ++ e))

/-- Model of fn fetch_script_with_dependencies: fetch the body, parse the
header, fetch the uncached dependencies, then build the UserScript with the
fresh id (Uuid::new_v4, passed in as freshId), the Unnamed Script name
fallback, order 0 (the caller assigns the real order), and the current
timestamp. -/
def fetch_script_with_dependencies (net : NetOracle) (now : Nat) (freshId : String)
    (url : String) (cache : DepCache) : DepCache × Except String UserScript :=
  match fetch_script_from_url net url with
  | .error e => (cache, .error e)
  | .ok code =>
    match fetch_dependencies net now (parse_metadata code).requires cache with
    | (cache1, .error e) => (cache1, .error e)
    | (cache1, .ok _) =>
      (cache1, .ok
        { id := freshId
          name := (parse_metadata code).name.getD "Unnamed Script"
          code := code
          enabled := true
          order := 0
          url := some url
          version := (parse_metadata code).version
          description := (parse_metadata code).description
          author := (parse_metadata code).author
          requires := (parse_metadata code).requires
          last_updated := some now
          last_fetch_error := none })

/-- The two mutex-guarded collections of AppState; persistence (save_scripts
and save_dependencies) writes snapshots of exactly this state and is not
modelled further. -/
structure RegistryState where
  scripts : List UserScript
  dependencies : DepCache
deriving DecidableEq, Repr

/-- The order assigned to a new script: iter().map(order).max().unwrap_or(-1)
of the existing collection. -/
def maxOrder (scripts : List UserScript) : Int :=
  match scripts.map (fun s => s.order) with
  | [] => -1
  | o :: os => os.foldl max o

/-- Model of the command add_script_from_url: reject a duplicate source URL,
run the fetch pipeline (cache mutations persist even on failure), then
append the new script with order max+1. -/
def add_script_from_url (net : NetOracle) (now : Nat) (freshId : String)
    (url : String) (st : RegistryState) : RegistryState × Except String UserScript :=
  if st.scripts.any (fun s => s.url = some url) then
    (st, .error "A script from this URL already exists")
  else
    match fetch_script_with_dependencies net now freshId url st.dependencies with
    | (deps1, .error e) => ({ st with dependencies := deps1 }, .error e)
    | (deps1, .ok fetched) =>
      ({ scripts := st.scripts ++ [{ fetched with order := maxOrder st.scripts + 1 }],
         dependencies := deps1 },
       .ok { fetched with order := maxOrder st.scripts + 1 })

/-- First script with the given id, as (pre, found, post) with the scripts
list equal to pre ++ found :: post and no match inside pre.  Models both
iter().position and iter_mut().find of the source, which act on the first
matching element. -/
def splitById : List UserScript → String → Option (List UserScript × UserScript × List UserScript)
  | [], _ => none
  | s :: rest, targetId =>
    if s.id = targetId then some ([], s, rest)
    else
      match splitById rest targetId with
      | some (pre, found, post) => some (s :: pre, found, post)
      | none => none

/-- Model of the command toggle_script: find by id, set the enabled flag,
NotFound otherwise. -/
def toggle_script (id : String) (enabled : Bool) (st : RegistryState) :
    RegistryState × Except String Unit :=
  match splitById st.scripts id with
  | some (pre, s, post) =>
    ({ st with scripts := pre ++ { s with enabled := enabled } :: post }, .ok ())
  | none => (st, .error "Script not found")

/-- Model of the command reorder_script: find by id, set the order field,
NotFound otherwise; no renormalization of other scripts. -/
def reorder_script (id : String) (newOrder : Int) (st : RegistryState) :
    RegistryState × Except String Unit :=
  match splitById st.scripts id with
  | some (pre, s, post) =>
    ({ st with scripts := pre ++ { s with order := newOrder } :: post }, .ok ())
  | none => (st, .error "Script not found")

/-- Model of the command delete_script: retain every script whose id
differs; there is no lookup and no NotFound case in the source. -/
def delete_script (id : String) (st : RegistryState) : RegistryState × Except String Unit :=
  ({ st with scripts := st.scripts.filter (fun s => decide (s.id ≠ id)) }, .ok ())

/-- Model of the command refresh_script: find by id (NotFound), require a
source URL (Unrefreshable), re-run the fetch pipeline, then overwrite the
stored script while restoring id, enabled and order and clearing the error.
On any pipeline failure the scripts list is left untouched and only the
dependency-cache mutations persist. -/
def refresh_script (net : NetOracle) (now : Nat) (freshId : String) (id : String)
    (st : RegistryState) : RegistryState × Except String UserScript :=
  match splitById st.scripts id with
  | none => (st, .error "Script not found")
  | some (pre, script, post) =>
    match script.url with
    | none => (st, .error "Cannot refresh manually added script")
    | some url =>
      match fetch_script_with_dependencies net now freshId url st.dependencies with
      | (deps1, .error e) => ({ st with dependencies := deps1 }, .error e)
      | (deps1, .ok fetched) =>
        ({ scripts := pre ++ { fetched with
              id := script.id
              enabled := script.enabled
              order := script.order
              last_updated := some now
              last_fetch_error := none } :: post,
           dependencies := deps1 },
         .ok { fetched with
              id := script.id
              enabled := script.enabled
              order := script.order
              last_updated := some now
              last_fetch_error := none })

/-- Modulus of u64. -/
def U64MOD : Nat := 2 ^ 64

/-- Wrapping u64 subtraction: release-mode semantics of now - last_updated in
the source (a debug build would instead panic on underflow; the properties
below only instantiate it with now at least last_updated, where both
semantics agree with Nat subtraction). -/
def u64sub (a b : Nat) : Nat :=
  (a % U64MOD + (U64MOD - b % U64MOD)) % U64MOD

/-- Seconds in 24 hours (one_day of the source). -/
def one_day : Nat := 24 * 60 * 60

/-- Seconds in one hour (one_hour of the source). -/
def one_hour : Nat := 60 * 60

/-- Whether a last_updated timestamp lies within the given backoff window
before now (false when the timestamp is absent), as computed by the two skip
checks of auto_update_scripts. -/
def recentWithin (now : Nat) (lu : Option Nat) (window : Nat) : Bool :=
  match lu with
  | some t => decide (u64sub now t < window)
  | none => false

/-- The per-script body of the auto_update_scripts loop: scripts without a
URL are ignored; any script updated less than 24 hours ago is skipped; then
a script carrying a stored error and updated less than one hour ago is
skipped; otherwise the fetch pipeline runs, on success overwriting the
content fields and clearing the error, on failure storing the error message,
setting last_updated to now in both cases.  Returns the resulting script,
the threaded dependency cache and the contribution to the success counter.
The fresh id generated inside the pipeline is discarded. -/
def process_script (net : NetOracle) (now : Nat) (script : UserScript) (cache : DepCache) :
    UserScript × DepCache × Nat :=
  match script.url with
  | none => (script, cache, 0)
  | some url =>
    if recentWithin now script.last_updated one_day then (script, cache, 0)
    else if script.last_fetch_error.isSome && recentWithin now script.last_updated one_hour then
      (script, cache, 0)
    else
      match fetch_script_with_dependencies net now "" url cache with
      | (cache1, .ok updated) =>
        ({ script with
            code := updated.code
            name := updated.name
            version := updated.version
            description := updated.description
            author := updated.author
            requires := updated.requires
            last_updated := some now
            last_fetch_error := none }, cache1, 1)
      | (cache1, .error e) =>
        ({ script with last_fetch_error := some e, last_updated := some now }, cache1, 0)

/-- The iteration of auto_update_scripts over the whole collection, threading
the dependency cache and summing the success counter. -/
def auto_update_loop (net : NetOracle) (now : Nat) :
    List UserScript → DepCache → List UserScript × DepCache × Nat
  | [], cache => ([], cache, 0)
  | s :: rest, cache =>
    let r1 := process_script net now s cache
    let r2 := auto_update_loop net now rest r1.2.1
    (r1.1 :: r2.1, r2.2.1, r1.2.2 + r2.2.2)

/-- Model of the command auto_update_scripts (run_once of the spec): walk the
registry once with a single now timestamp, returning the new state and the
count of scripts successfully updated. -/
def auto_update_scripts (net : NetOracle) (now : Nat) (st : RegistryState) :
    RegistryState × Nat :=
  let r := auto_update_loop net now st.scripts st.dependencies
  ({ scripts := r.1, dependencies := r.2.1 }, r.2.2)

/-- Ascending comparison on the order field, the key of the sort in
get_initialization_script. -/
def orderLe (a b : UserScript) : Prop := a.order ≤ b.order

instance : DecidableRel orderLe := fun a b =>
  inferInstanceAs (Decidable (a.order ≤ b.order))

instance : IsTotal UserScript orderLe := ⟨fun a b => Int.le_total a.order b.order⟩

instance : IsTrans UserScript orderLe := ⟨fun _ _ _ h1 h2 => le_trans h1 h2⟩

/-- Enabled scripts in injection order: filter the enabled ones, then sort
ascending by order.  slice::sort_by_key is a stable sort; it is modelled by
the stable insertionSort, so ties keep the collection order. -/
def enabledSorted (scripts : List UserScript) : List UserScript :=
  List.insertionSort orderLe (scripts.filter (fun s => s.enabled))

/-- First-seen deduplication with an explicit seen accumulator, modelling the
HashSet::insert test of the dependency-union loop. -/
def dedupFirstSeen (seen : List String) : List String → List String
  | [] => []
  | u :: rest =>
    if u ∈ seen then dedupFirstSeen seen rest
    else u :: dedupFirstSeen (u :: seen) rest

/-- The deduplicated union of the dependency URLs of the given scripts, first
seen first, the scripts visited in the given order (the source visits
enabled_scripts in sorted order with a nested loop over requires). -/
def collectRequires (scripts : List UserScript) : List String :=
  dedupFirstSeen [] (scripts.foldr (fun s acc => s.requires ++ acc) [])

/-- One emitted unit of the initialization script, in emission order.  The
fixed text of each unit (base64 wrappers, console logging) is an
implementation detail; what is kept is which unit it is, which data it
embeds, and its position.  The titlebar unit embeds the JSON of the whole
collection, disabled scripts included. -/
inductive Segment where
  | apiShim : Segment
  | titlebar (allScripts : List UserScript) : Segment
  | discordPresence : Segment
  | depLoaded (url : String) (code : String) : Segment
  | depMissing (url : String) : Segment
  | userscript (s : UserScript) : Segment
deriving DecidableEq, Repr

/-- Emission for one collected dependency URL: its cached code when present,
otherwise the missing-dependency diagnostic (non-fatal). -/
def depSegment (cache : DepCache) (url : String) : Segment :=
  match cacheLookup cache url with
  | some d => .depLoaded url d.code
  | none => .depMissing url

/-- Model of fn get_initialization_script as the ordered list of emitted
units: the API shim, the titlebar (embedding the whole collection), the
presence hook, then the deduplicated dependencies, then every enabled script
in sorted order.  The bridge listener wiring of the source follows the
userscript units and carries no registry data, so it is not a unit here. -/
def get_initialization_script (scripts : List UserScript) (cache : DepCache) : List Segment :=
  let enabled := enabledSorted scripts
  [Segment.apiShim, Segment.titlebar scripts, Segment.discordPresence]
    ++ (collectRequires enabled).map (depSegment cache)
    ++ enabled.map Segment.userscript

/-- The userscript units of a payload, in emission order: these are the code
blocks executed as scripts in the page. -/
def payloadScripts (segs : List Segment) : List UserScript :=
  segs.filterMap (fun seg =>
    match seg with
    | .userscript s => some s
    | _ => none)

/-- The untrusted-side listener table of the bridge: one pending one-shot
listener per outstanding request, keyed by correlation id, in registration
order; the caller token stands for the callback closure.  Models the
addEventListener handlers created per request by GM_xmlhttpRequest and by
the gg_invoke senders in the payload. -/
structure BridgeState (α : Type) where
  pending : List (String × α)
deriving DecidableEq, Repr

/-- Issuing a request: a listener for its correlation id is appended. -/
def registerListener {α : Type} (st : BridgeState α) (id : String) (caller : α) :
    BridgeState α :=
  ⟨st.pending ++ [(id, caller)]⟩

/-- Arrival of a reply: every pending handler receives the event; a handler
whose stored correlation id equals the reply id removes itself and resolves
its caller, every other handler ignores the event.  Returns the new listener
table and the resolved callers. -/
def deliverReply {α : Type} (st : BridgeState α) (replyId : String) :
    BridgeState α × List α :=
  (⟨st.pending.filter (fun p => decide (¬ p.1 = replyId))⟩,
   (st.pending.filter (fun p => decide (p.1 = replyId))).map (fun p => p.2))

instance {ε α : Type} [DecidableEq ε] [DecidableEq α] : DecidableEq (Except ε α)
  | .error x, .error y => decidable_of_iff (x = y) (by simp)
  | .ok x, .ok y => decidable_of_iff (x = y) (by simp)
  | .error _, .ok _ => isFalse (by simp)
  | .ok _, .error _ => isFalse (by simp)

section Helpers

/-- Stripping a literal off a list that begins with it yields the remainder. -/
lemma dropLit?_append (p s : List Char) : dropLit? p (p ++ s) = some s := by
  induction p with
  | nil => rfl
  | cons c cs ih => simp [dropLit?, ih]

/-- Stripping a literal shortens the list by the literal's length. -/
lemma dropLit?_length : ∀ {p s t : List Char}, dropLit? p s = some t →
    t.length + p.length = s.length := by
  intro p
  induction p with
  | nil => intro s t h; simp [dropLit?] at h; simp [h]
  | cons c cs ih =>
    intro s t h
    cases s with
    | nil => simp [dropLit?] at h
    | cons d ds =>
      simp only [dropLit?] at h
      by_cases hc : c = d
      · rw [if_pos hc] at h
        have := ih h
        simp [List.length_cons]
        omega
      · rw [if_neg hc] at h
        cases h

/-- Lookup after insert: the inserted key maps to the new record, others are
unchanged. -/
lemma cacheLookup_insert (cache : DepCache) (v w : String) (d : ScriptDependency) :
    cacheLookup (cacheInsert cache v d) w = if v = w then some d else cacheLookup cache w := by
  simp only [cacheLookup, cacheInsert, List.find?]
  by_cases h : v = w
  · simp [h]
  · simp [h]

lemma cacheContains_insert (cache : DepCache) (v w : String) (d : ScriptDependency) :
    cacheContains (cacheInsert cache v d) w = ((v = w) || cacheContains cache w) := by
  simp only [cacheContains, cacheLookup_insert]
  by_cases h : v = w <;> simp [h]

end Helpers

section C2

/-- With pairwise-distinct ids, filtering out one present id drops exactly one
element. -/
lemma filter_ne_id_length {l : List UserScript} {targetId : String}
    (h : (l.map (fun s => s.id)).Nodup) {s : UserScript} (hs : s ∈ l)
    (hid : s.id = targetId) :
    (l.filter (fun t => decide (t.id ≠ targetId))).length + 1 = l.length := by
  induction l with
  | nil => cases hs
  | cons t rest ih =>
    simp only [List.map_cons, List.nodup_cons] at h
    by_cases ht : t.id = targetId
    · have hrest : ∀ u ∈ rest, u.id ≠ targetId := by
        intro u hu he
        exact h.1 (by rw [ht, ← he]; exact List.mem_map_of_mem (fun x => x.id) hu)
      have hfr : rest.filter (fun t => decide (t.id ≠ targetId)) = rest :=
        List.filter_eq_self.mpr (fun u hu => by simpa using hrest u hu)
      rw [List.filter_cons, if_neg (by simp [ht]), hfr]
      simp
    · have hs' : s ∈ rest := by
        rcases List.mem_cons.mp hs with h1 | h1
        · exact absurd (h1 ▸ hid) ht
        · exact h1
      have hlen := ih h.2 hs'
      rw [List.filter_cons, if_pos (by simp [ht])]
      simp only [List.length_cons]
      omega

/-- C2, counterexample: delete on an id absent from the registry succeeds with
Ok instead of failing with NotFound (the source uses retain, with no lookup). -/
theorem c2_counterexample :
    (delete_script "missing"
      { scripts := [{ id := "a", name := "A", code := "a();", enabled := true, order := 0 }],
        dependencies := [] }).2 = Except.ok () ∧
    (delete_script "missing"
      { scripts := [{ id := "a", name := "A", code := "a();", enabled := true, order := 0 }],
        dependencies := [] }).1.scripts.length = 1 := by
  exact ⟨rfl, rfl⟩

/-- C2 (amended): delete never fails - it returns Ok whether or not the id is
present; when the id is present (ids being unique), exactly that script is
removed and every other script is kept. -/
theorem c2_delete_semantics (id : String) (st : RegistryState)
    (huniq : (st.scripts.map (fun s => s.id)).Nodup)
    (s : UserScript) (hs : s ∈ st.scripts) (hid : s.id = id) :
    (delete_script id st).2 = Except.ok () ∧
    (delete_script id st).1.scripts.length + 1 = st.scripts.length ∧
    s ∉ (delete_script id st).1.scripts ∧
    (∀ t ∈ st.scripts, t.id ≠ id → t ∈ (delete_script id st).1.scripts) := by
  refine ⟨rfl, ?_, ?_, ?_⟩
  · exact filter_ne_id_length huniq hs hid
  · intro hmem
    have := (List.mem_filter.mp hmem).2
    simp [hid] at this
  · intro t ht hne
    exact List.mem_filter.mpr ⟨ht, by simpa using hne⟩

/-- C2 witness: a concrete two-script registry; deleting id a removes exactly
that script. -/
theorem c2_witness :
    (delete_script "a"
      { scripts := [{ id := "a", name := "A", code := "a();", enabled := true, order := 0 },
                    { id := "b", name := "B", code := "b();", enabled := true, order := 1 }],
        dependencies := [] }).2 = Except.ok () ∧
    (delete_script "a"
      { scripts := [{ id := "a", name := "A", code := "a();", enabled := true, order := 0 },
                    { id := "b", name := "B", code := "b();", enabled := true, order := 1 }],
        dependencies := [] }).1.scripts.length + 1 = 2 ∧
    ({ id := "a", name := "A", code := "a();", enabled := true, order := 0 } : UserScript) ∉
      (delete_script "a"
        { scripts := [{ id := "a", name := "A", code := "a();", enabled := true, order := 0 },
                      { id := "b", name := "B", code := "b();", enabled := true, order := 1 }],
          dependencies := [] }).1.scripts ∧
    (∀ t ∈ [{ id := "a", name := "A", code := "a();", enabled := true, order := 0 },
            { id := "b", name := "B", code := "b();", enabled := true, order := 1 }],
        t.id ≠ "a" →
        t ∈ (delete_script "a"
          { scripts := [{ id := "a", name := "A", code := "a();", enabled := true, order := 0 },
                        { id := "b", name := "B", code := "b();", enabled := true, order := 1 }],
            dependencies := [] }).1.scripts) := by
  have h := c2_delete_semantics "a"
    { scripts := [{ id := "a", name := "A", code := "a();", enabled := true, order := 0 },
                  { id := "b", name := "B", code := "b();", enabled := true, order := 1 }],
      dependencies := [] }
    (by decide)
    { id := "a", name := "A", code := "a();", enabled := true, order := 0 }
    (by decide) rfl
  exact h

end C2

section C5

/-- A witness in the collection makes the duplicate-URL test of
add_script_from_url fire. -/
lemma any_url_true {l : List UserScript} {url : String}
    (h : ∃ s ∈ l, s.url = some url) :
    l.any (fun s => s.url = some url) = true := by
  rcases h with ⟨s, hs, hurl⟩
  exact List.any_eq_true.mpr ⟨s, hs, by simp [hurl]⟩

/-- add_script_from_url rejects a URL already present, before any fetch, and
leaves the whole state untouched. -/
lemma add_duplicate_err {net : NetOracle} {now : Nat} {fid url : String}
    {st : RegistryState} (h : ∃ s ∈ st.scripts, s.url = some url) :
    add_script_from_url net now fid url st =
      (st, Except.error "A script from this URL already exists") := by
  simp [add_script_from_url, any_url_true h]

/-- Shape of a successful fetch pipeline run: the body fetched, all
dependencies resolved, and the script record built field by field. -/
lemma fetch_swd_ok_shape {net : NetOracle} {now : Nat} {fid url : String}
    {cache cache1 : DepCache} {s : UserScript}
    (h : fetch_script_with_dependencies net now fid url cache = (cache1, Except.ok s)) :
    ∃ code, fetch_script_from_url net url = Except.ok code ∧
      fetch_dependencies net now (parse_metadata code).requires cache =
        (cache1, Except.ok ()) ∧
      s = { id := fid
            name := (parse_metadata code).name.getD "Unnamed Script"
            code := code
            enabled := true
            order := 0
            url := some url
            version := (parse_metadata code).version
            description := (parse_metadata code).description
            author := (parse_metadata code).author
            requires := (parse_metadata code).requires
            last_updated := some now
            last_fetch_error := none } := by
  unfold fetch_script_with_dependencies at h
  split at h
  next e hf => exact absurd (congrArg Prod.snd h) (by simp)
  next code hf =>
    split at h
    next cache2 e heq => exact absurd (congrArg Prod.snd h) (by simp)
    next cache2 u heq =>
      injection h with h1 h2
      injection h2 with h3
      subst h1
      cases u
      exact ⟨code, hf, heq, h3.symm⟩

/-- C5: a URL already present in the registry makes add_script_from_url fail
with the DuplicateSource error and leave the state unchanged; consequently a
second add of the same URL right after a successful one always fails. -/
theorem c5_duplicate_source (net net2 : NetOracle) (now now2 : Nat)
    (fid fid2 : String) (url : String) (st : RegistryState) :
    ((∃ s ∈ st.scripts, s.url = some url) →
      add_script_from_url net now fid url st =
        (st, Except.error "A script from this URL already exists")) ∧
    (∀ st1 s1, add_script_from_url net now fid url st = (st1, Except.ok s1) →
      add_script_from_url net2 now2 fid2 url st1 =
        (st1, Except.error "A script from this URL already exists")) := by
  constructor
  · exact fun h => add_duplicate_err h
  · intro st1 s1 h
    unfold add_script_from_url at h
    split at h
    next hcond => exact absurd (congrArg Prod.snd h) (by simp)
    next hcond =>
      split at h
      next deps1 e heq => exact absurd (congrArg Prod.snd h) (by simp)
      next deps1 fetched heq =>
        have hurl : fetched.url = some url := by
          obtain ⟨code, _, _, hrec⟩ := fetch_swd_ok_shape heq
          rw [hrec]
        obtain ⟨h1, h2⟩ := Prod.mk.inj h
        apply add_duplicate_err
        refine ⟨{ fetched with order := maxOrder st.scripts + 1 }, ?_, by simpa using hurl⟩
        rw [← h1]
        simp

/-- C5 witness: with a script from the URL already present, the add fails and
the registry is unchanged. -/
theorem c5_witness :
    add_script_from_url (fun _ => Except.error "offline") 0 "f" "https://u.example/s"
      { scripts := [{ id := "a", name := "A", code := "a();", enabled := true, order := 0,
                      url := some "https://u.example/s" }],
        dependencies := [] } =
      ({ scripts := [{ id := "a", name := "A", code := "a();", enabled := true, order := 0,
                       url := some "https://u.example/s" }],
         dependencies := [] },
       Except.error "A script from this URL already exists") :=
  (c5_duplicate_source (fun _ => Except.error "offline") (fun _ => Except.error "offline")
      0 0 "f" "f" "https://u.example/s" _).1
    ⟨{ id := "a", name := "A", code := "a();", enabled := true, order := 0,
       url := some "https://u.example/s" }, by simp, rfl⟩

end C5

section C4

/-- C4: whenever refresh_script fails - id not found, no source URL, or any
failure of the fetch pipeline including dependency fetches - the stored
scripts collection is returned byte-for-byte unchanged (in particular the
script's last_fetch_error field is untouched) and the error goes to the
caller; a script without a URL yields exactly the Unrefreshable error with
the whole state unchanged. -/
theorem c4_refresh_failure_atomic (net : NetOracle) (now : Nat) (fid id : String)
    (st : RegistryState) :
    (∀ e, (refresh_script net now fid id st).2 = Except.error e →
        (refresh_script net now fid id st).1.scripts = st.scripts) ∧
    (∀ pre s post, splitById st.scripts id = some (pre, s, post) → s.url = none →
        refresh_script net now fid id st =
          (st, Except.error "Cannot refresh manually added script")) := by
  constructor
  · intro e
    unfold refresh_script
    cases hsplit : splitById st.scripts id with
    | none => intro _; rfl
    | some triple =>
      obtain ⟨pre, s, post⟩ := triple
      dsimp only
      cases hu : s.url with
      | none => intro _; rfl
      | some u =>
        dsimp only
        cases hfd : fetch_script_with_dependencies net now fid u st.dependencies with
        | mk deps1 res =>
          cases res with
          | error e2 => intro _; rfl
          | ok fetched =>
            dsimp only
            intro he
            exact absurd he (by simp)
  · intro pre s post hsplit hurl
    unfold refresh_script
    rw [hsplit]
    dsimp only
    rw [hurl]

/-- C4 witness: refreshing a manually added script (no URL) fails with the
Unrefreshable error and leaves the state untouched. -/
theorem c4_witness :
    refresh_script (fun _ => Except.error "offline") 0 "f" "a"
      { scripts := [{ id := "a", name := "A", code := "a();", enabled := true, order := 0 }],
        dependencies := [] } =
      ({ scripts := [{ id := "a", name := "A", code := "a();", enabled := true, order := 0 }],
         dependencies := [] },
       Except.error "Cannot refresh manually added script") :=
  (c4_refresh_failure_atomic (fun _ => Except.error "offline") 0 "f" "a" _).2
    [] { id := "a", name := "A", code := "a();", enabled := true, order := 0 } [] rfl rfl

end C4

section C1

/-- C1: the failing input of the error-backoff claim.  The script carries a
stored fetch error and last_updated is 90 minutes old (994600 = 1000000 -
5400); the network would deliver a fresh body, yet auto_update_scripts
leaves the script byte-for-byte unchanged and reports zero updates, because
the 24-hour check fires before the one-hour error-backoff check ever runs.
The spec instead requires this script to be retried at the one-hour
cadence. -/
theorem c1_error_backoff_not_honored :
    auto_update_scripts
      (fun _ => Except.ok { status := 200, statusText := "OK",
                            contentType := some "text/javascript", body := "fresh();" })
      1000000
      { scripts := [{ id := "a", name := "A", code := "old();", enabled := true, order := 0,
                      url := some "https://u.example/s",
                      last_updated := some 994600,
                      last_fetch_error := some "previous failure" }],
        dependencies := [] } =
      ({ scripts := [{ id := "a", name := "A", code := "old();", enabled := true, order := 0,
                       url := some "https://u.example/s",
                       last_updated := some 994600,
                       last_fetch_error := some "previous failure" }],
         dependencies := [] }, 0) := by
  rfl

end C1

section C10

/-- C10: every path that builds a script from a fetched body whose header
yields no name directive uses the literal fallback Unnamed Script: the fetch
pipeline itself (used by add), refresh (which also overwrites the stored
name in place), and the auto-update loop body. -/
theorem c10_unnamed_fallback (net : NetOracle) (now : Nat) (fid url : String)
    (code : String) (hfetch : fetch_script_from_url net url = Except.ok code)
    (hname : (parse_metadata code).name = none) :
    (∀ cache cache1 s,
        fetch_script_with_dependencies net now fid url cache = (cache1, Except.ok s) →
        s.name = "Unnamed Script") ∧
    (∀ st id pre old post s,
        splitById st.scripts id = some (pre, old, post) → old.url = some url →
        (refresh_script net now fid id st).2 = Except.ok s →
        s.name = "Unnamed Script" ∧
        (refresh_script net now fid id st).1.scripts = pre ++ s :: post) ∧
    (∀ script cache cache1 u, script.url = some url →
        fetch_script_with_dependencies net now "" url cache = (cache1, Except.ok u) →
        recentWithin now script.last_updated one_day = false →
        (script.last_fetch_error.isSome &&
          recentWithin now script.last_updated one_hour) = false →
        (process_script net now script cache).1.name = "Unnamed Script") := by
  have hmain : ∀ fid2 cache cache1 s,
      fetch_script_with_dependencies net now fid2 url cache = (cache1, Except.ok s) →
      s.name = "Unnamed Script" := by
    intro fid2 cache cache1 s h
    obtain ⟨code2, hf2, _, hrec⟩ := fetch_swd_ok_shape h
    have hcode : code2 = code := by
      have := hf2.symm.trans hfetch
      injection this
    rw [hrec]
    simp [hcode, hname]
  refine ⟨fun cache cache1 s h => hmain fid cache cache1 s h, ?_, ?_⟩
  · intro st id pre old post s hsplit hurl
    unfold refresh_script
    rw [hsplit]
    dsimp only
    rw [hurl]
    dsimp only
    cases hfd : fetch_script_with_dependencies net now fid url st.dependencies with
    | mk deps1 res =>
      cases res with
      | error e =>
        dsimp only
        intro h
        exact absurd h (by simp)
      | ok fetched =>
        dsimp only
        intro h
        injection h with h3
        have hn : fetched.name = "Unnamed Script" := hmain fid _ _ _ hfd
        constructor
        · rw [← h3]
          exact hn
        · rw [← h3]
  · intro script cache cache1 u hurl hfd hskip24 hskip1
    unfold process_script
    rw [hurl]
    dsimp only
    rw [hskip24]
    simp only [Bool.false_eq_true, if_false]
    rw [hskip1]
    simp only [Bool.false_eq_true, if_false]
    rw [hfd]
    dsimp only
    exact hmain "" _ _ _ hfd

/-- Network fixture for the C10 witness: every URL resolves to a script body
with no header block. -/
def c10net : NetOracle := fun _ =>
  Except.ok { status := 200, statusText := "OK",
              contentType := some "text/javascript", body := "plain();" }

/-- Registry fixture for the C10 witness: one remote script with a stored
name. -/
def c10st : RegistryState :=
  { scripts := [{ id := "a", name := "Old Name", code := "old();", enabled := true,
                  order := 3, url := some "https://u.example/s" }],
    dependencies := [] }

/-- The script produced by refreshing the C10 fixture. -/
def c10res : UserScript :=
  { id := "a", name := "Unnamed Script", code := "plain();", enabled := true,
    order := 3, url := some "https://u.example/s", version := none,
    description := none, author := none, requires := [],
    last_updated := some 5, last_fetch_error := none }

/-- C10 witness: refreshing a stored script whose remote body lost its header
overwrites the stored name Old Name with Unnamed Script. -/
theorem c10_witness :
    (refresh_script c10net 5 "f" "a" c10st).2 = Except.ok c10res ∧
    c10res.name = "Unnamed Script" ∧
    (refresh_script c10net 5 "f" "a" c10st).1.scripts = [] ++ c10res :: [] := by
  have h := (c10_unnamed_fallback c10net 5 "f" "https://u.example/s" "plain();"
      rfl rfl).2.1 c10st "a" []
      { id := "a", name := "Old Name", code := "old();", enabled := true,
        order := 3, url := some "https://u.example/s" } [] c10res rfl rfl rfl
  exact ⟨rfl, h.1, h.2⟩

end C10

section C8

/-- Counting UTF-8 bytes of a run of the one-byte character a. -/
lemma utf8Len_replicate (n : Nat) : String.utf8Len (List.replicate n 'a') = n := by
  induction n with
  | zero => rfl
  | succ k ih =>
    rw [List.replicate_succ]
    simp [ih]
    rfl

/-- Byte size of a string of n copies of a. -/
lemma utf8ByteSize_mk_replicate (n : Nat) :
    (String.mk (List.replicate n 'a')).utf8ByteSize = n := by
  show String.utf8Len (List.replicate n 'a') = n
  exact utf8Len_replicate n

/-- C8: an otherwise valid response (HTTPS URL, 2xx status, acceptable
content type) whose body exceeds 10 MiB makes fetch_script_from_url return
the TooLarge error, and the add/refresh pipeline then aborts with that very
error without touching the dependency cache - in particular the oversized
body is never handed to the metadata parser, whose output influences
nothing on this path. -/
theorem c8_too_large (net : NetOracle) (url : String) (r : HttpResponse)
    (hhttps : startsWithLit "https://" url = true)
    (hnet : net url = Except.ok r)
    (hstatus : 200 ≤ r.status ∧ r.status ≤ 299)
    (hct : contentTypeOk r.contentType = true)
    (hsize : 10 * 1024 * 1024 < r.body.utf8ByteSize) :
    fetch_script_from_url net url = Except.error "Script too large (>10MB)" ∧
    (∀ now fid cache, fetch_script_with_dependencies net now fid url cache =
        (cache, Except.error "Script too large (>10MB)")) := by
  have hf : fetch_script_from_url net url = Except.error "Script too large (>10MB)" := by
    unfold fetch_script_from_url
    rw [if_neg (by simp [hhttps]), hnet]
    dsimp only
    rw [if_neg (by simp [hstatus]), if_neg (by simp [hct]), if_pos hsize]
  refine ⟨hf, fun now fid cache => ?_⟩
  unfold fetch_script_with_dependencies
  rw [hf]

/-- A body one byte over the 10 MiB limit. -/
def c8big : String := String.mk (List.replicate (10 * 1024 * 1024 + 1) 'a')

/-- Network fixture for the C8 witness: an otherwise valid oversized
response. -/
def c8net : NetOracle := fun _ =>
  Except.ok { status := 200, statusText := "OK",
              contentType := some "text/javascript", body := c8big }

/-- C8 witness: an 10 MiB + 1 byte body is rejected with the TooLarge error
and the pipeline aborts with it, cache untouched. -/
theorem c8_witness :
    fetch_script_from_url c8net "https://u.example/big" =
      Except.error "Script too large (>10MB)" ∧
    fetch_script_with_dependencies c8net 0 "f" "https://u.example/big" [] =
      ([], Except.error "Script too large (>10MB)") := by
  have hsize : 10 * 1024 * 1024 < c8big.utf8ByteSize := by
    unfold c8big
    rw [utf8ByteSize_mk_replicate]
    exact Nat.lt_succ_self _
  have h := c8_too_large c8net "https://u.example/big"
    { status := 200, statusText := "OK",
      contentType := some "text/javascript", body := c8big }
    rfl rfl (by constructor <;> decide) (by decide) hsize
  exact ⟨h.1, h.2 0 "f" []⟩

end C8

section C9

/-- With pairwise-distinct correlation ids, a pending pair splits the table
into listeners strictly before and after it, none of them sharing its id. -/
lemma pending_decomp {α : Type} :
    ∀ {l : List (String × α)} {id : String} {caller : α},
      (l.map (fun p => p.1)).Nodup → (id, caller) ∈ l →
      ∃ pre post, l = pre ++ (id, caller) :: post ∧
        (∀ p ∈ pre, p.1 ≠ id) ∧ (∀ p ∈ post, p.1 ≠ id) := by
  intro l
  induction l with
  | nil => intro id caller _ hmem; cases hmem
  | cons q rest ih =>
    intro id caller hnodup hmem
    simp only [List.map_cons, List.nodup_cons] at hnodup
    rcases List.mem_cons.mp hmem with hq | hrest
    · refine ⟨[], rest, by rw [hq]; rfl, by simp, ?_⟩
      intro p hp he
      apply hnodup.1
      have hq1 : q.1 = id := by rw [← hq]
      rw [hq1, ← he]
      exact List.mem_map_of_mem (fun p => p.1) hp
    · obtain ⟨pre, post, hsplit, hpre, hpost⟩ := ih hnodup.2 hrest
      refine ⟨q :: pre, post, by rw [hsplit]; rfl, ?_, hpost⟩
      intro p hp
      rcases List.mem_cons.mp hp with hpq | hpp
      · intro he
        apply hnodup.1
        rw [hpq] at he
        rw [he]
        have : (id, caller) ∈ rest := hrest
        exact List.mem_map_of_mem (fun p => p.1) this
      · exact hpre p hpp

/-- C9: with any number of outstanding requests carrying pairwise-distinct
correlation ids, the arrival of a reply resolves exactly the caller whose
request bears that id, removes exactly that one-shot listener (all others
keep their order, so any arrival order - reverse order included - resolves
each reply to its own caller), a second reply with the same id then resolves
nobody, and a reply matching no pending id is dropped: no caller resolved,
listener table unchanged. -/
theorem c9_bridge_correlation {α : Type} (st : BridgeState α)
    (hnodup : (st.pending.map (fun p => p.1)).Nodup) :
    (∀ id caller, (id, caller) ∈ st.pending →
        (deliverReply st id).2 = [caller] ∧
        (∃ pre post, st.pending = pre ++ (id, caller) :: post ∧
          (deliverReply st id).1.pending = pre ++ post) ∧
        (deliverReply (deliverReply st id).1 id).2 = []) ∧
    (∀ id, (∀ p ∈ st.pending, p.1 ≠ id) → deliverReply st id = (st, [])) := by
  constructor
  · intro id caller hmem
    obtain ⟨pre, post, hsplit, hpre, hpost⟩ := pending_decomp hnodup hmem
    have hfilter_eq : st.pending.filter (fun p => decide (p.1 = id)) = [(id, caller)] := by
      rw [hsplit, List.filter_append]
      rw [List.filter_eq_nil_iff.mpr (fun p hp => by simpa using hpre p hp)]
      simp only [List.nil_append, List.filter_cons]
      rw [if_pos (by simp)]
      rw [List.filter_eq_nil_iff.mpr (fun p hp => by simpa using hpost p hp)]
    have hfilter_ne : st.pending.filter (fun p => decide (¬ p.1 = id)) = pre ++ post := by
      rw [hsplit, List.filter_append]
      rw [List.filter_eq_self.mpr (fun p hp => by simpa using hpre p hp)]
      simp only [List.filter_cons]
      rw [if_neg (by simp)]
      rw [List.filter_eq_self.mpr (fun p hp => by simpa using hpost p hp)]
    refine ⟨?_, ⟨pre, post, hsplit, ?_⟩, ?_⟩
    · show (st.pending.filter (fun p => decide (p.1 = id))).map (fun p => p.2) = [caller]
      rw [hfilter_eq]
      rfl
    · show st.pending.filter (fun p => decide (¬ p.1 = id)) = pre ++ post
      exact hfilter_ne
    · show ((st.pending.filter (fun p => decide (¬ p.1 = id))).filter
          (fun p => decide (p.1 = id))).map (fun p => p.2) = []
      rw [hfilter_ne, List.filter_append]
      rw [List.filter_eq_nil_iff.mpr (fun p hp => by simpa using hpre p hp)]
      rw [List.filter_eq_nil_iff.mpr (fun p hp => by simpa using hpost p hp)]
      rfl
  · intro id hnone
    have h1 : st.pending.filter (fun p => decide (¬ p.1 = id)) = st.pending :=
      List.filter_eq_self.mpr (fun p hp => by simpa using hnone p hp)
    have h2 : st.pending.filter (fun p => decide (p.1 = id)) = [] :=
      List.filter_eq_nil_iff.mpr (fun p hp => by simpa using hnone p hp)
    show (⟨st.pending.filter (fun p => decide (¬ p.1 = id))⟩,
          (st.pending.filter (fun p => decide (p.1 = id))).map (fun p => p.2)) = (st, [])
    rw [h1, h2]
    rfl

/-- C9 witness: three outstanding requests; the reply to the last-issued id
resolves exactly its caller, a repeat of that reply resolves nobody, and an
unknown id is dropped with the table unchanged. -/
theorem c9_witness :
    (deliverReply ⟨[("r1", 1), ("r2", 2), ("r3", 3)]⟩ "r3").2 = [3] ∧
    (deliverReply (deliverReply (⟨[("r1", 1), ("r2", 2), ("r3", 3)]⟩ : BridgeState Nat)
        "r3").1 "r3").2 = [] ∧
    deliverReply (⟨[("r1", 1), ("r2", 2), ("r3", 3)]⟩ : BridgeState Nat) "nobody" =
      (⟨[("r1", 1), ("r2", 2), ("r3", 3)]⟩, []) := by
  have h := c9_bridge_correlation (⟨[("r1", 1), ("r2", 2), ("r3", 3)]⟩ : BridgeState Nat)
    (by decide)
  have h1 := h.1 "r3" 3 (by decide)
  exact ⟨h1.1, h1.2.2, h.2 "nobody" (by decide)⟩

end C9

section C6

/-- A dependency unit is never a userscript unit. -/
lemma depSegment_not_userscript (cache : DepCache) (u : String) :
    (match depSegment cache u with
     | Segment.userscript s => some s
     | _ => none) = (none : Option UserScript) := by
  unfold depSegment
  cases cacheLookup cache u <;> rfl

/-- The userscript units of the assembled payload are exactly the enabled
scripts in sorted order. -/
lemma payloadScripts_init (scripts : List UserScript) (cache : DepCache) :
    payloadScripts (get_initialization_script scripts cache) = enabledSorted scripts := by
  unfold payloadScripts get_initialization_script
  rw [List.filterMap_append, List.filterMap_append, List.filterMap_map, List.filterMap_map]
  have hdeps : List.filterMap
      ((fun seg => match seg with
        | Segment.userscript s => some s
        | _ => none) ∘ depSegment cache) (collectRequires (enabledSorted scripts)) = [] := by
    rw [List.filterMap_eq_nil_iff]
    intro u _
    exact depSegment_not_userscript cache u
  have hscripts : List.filterMap
      ((fun seg => match seg with
        | Segment.userscript s => some s
        | _ => none) ∘ Segment.userscript) (enabledSorted scripts) =
      enabledSorted scripts := by
    have : ((fun seg => match seg with
        | Segment.userscript s => some s
        | _ => none) ∘ Segment.userscript) = (some : UserScript → Option UserScript) := rfl
    rw [this, List.filterMap_some]
  rw [hdeps, hscripts]
  rfl

/-- C6: in the assembled payload, the userscript units are exactly the
enabled scripts (disabled scripts are never emitted as userscript units);
any two enabled scripts with strictly increasing order values appear in that
order at every pair of positions; and ties in order keep the original
collection order (stable sort). -/
theorem c6_assembler_order (scripts : List UserScript) (cache : DepCache) :
    (∀ s ∈ payloadScripts (get_initialization_script scripts cache), s.enabled = true) ∧
    (∀ s ∈ scripts, s.enabled = true →
        s ∈ payloadScripts (get_initialization_script scripts cache)) ∧
    (∀ (A B : UserScript) (i j : Nat), A.enabled = true → B.enabled = true → A.order < B.order →
        (payloadScripts (get_initialization_script scripts cache))[i]? = some A →
        (payloadScripts (get_initialization_script scripts cache))[j]? = some B →
        i < j) ∧
    (∀ (A B : UserScript), A.order ≤ B.order →
        [A, B].Sublist (scripts.filter (fun s => s.enabled)) →
        [A, B].Sublist (payloadScripts (get_initialization_script scripts cache))) := by
  rw [payloadScripts_init]
  refine ⟨?_, ?_, ?_, ?_⟩
  · intro s hs
    have : s ∈ scripts.filter (fun s => s.enabled) := by
      unfold enabledSorted at hs
      exact (List.mem_insertionSort orderLe).mp hs
    exact (List.mem_filter.mp this).2
  · intro s hs hen
    unfold enabledSorted
    exact (List.mem_insertionSort orderLe).mpr (List.mem_filter.mpr ⟨hs, hen⟩)
  · intro A B i j _ _ horder hA hB
    have hsorted : (enabledSorted scripts).Pairwise orderLe :=
      List.sorted_insertionSort orderLe (scripts.filter (fun s => s.enabled))
    obtain ⟨hi, hAi⟩ := List.getElem?_eq_some_iff.mp hA
    obtain ⟨hj, hBj⟩ := List.getElem?_eq_some_iff.mp hB
    by_contra hij
    rcases Nat.lt_or_ge j i with hji | hji
    · have := (List.pairwise_iff_getElem.mp hsorted) j i hj hi hji
      rw [hAi, hBj] at this
      exact absurd this (by unfold orderLe; omega)
    · have hji2 : j = i := by omega
      subst hji2
      rw [hAi] at hBj
      rw [hBj] at horder
      omega
  · intro A B hab hsub
    exact List.pair_sublist_insertionSort hab hsub

/-- Script fixtures for the C6 witness. -/
def c6a : UserScript := { id := "a", name := "A", code := "a();", enabled := true, order := 1 }

/-- Script fixture of higher order for the C6 witness. -/
def c6b : UserScript := { id := "b", name := "B", code := "b();", enabled := true, order := 2 }

/-- Disabled script fixture for the C6 witness. -/
def c6c : UserScript := { id := "c", name := "C", code := "c();", enabled := false, order := 0 }

/-- Script fixture sharing order 1 with c6a, listed after it. -/
def c6d : UserScript := { id := "d", name := "D", code := "d();", enabled := true, order := 1 }

/-- Registry fixture for the C6 witness. -/
def c6list : List UserScript := [c6b, c6a, c6c, c6d]

/-- C6 witness: with orders 2, 1, (disabled), 1 in the collection, the
enabled order-1 script appears in the payload, the strict pair (order 1,
order 2) sits at positions 0 and 2, and the two order-1 scripts keep their
collection order. -/
theorem c6_witness :
    c6a ∈ payloadScripts (get_initialization_script c6list []) ∧
    (0 : Nat) < 2 ∧
    [c6a, c6d].Sublist (payloadScripts (get_initialization_script c6list [])) := by
  have h := c6_assembler_order c6list []
  refine ⟨?_, ?_, ?_⟩
  · exact h.2.1 c6a (by decide) rfl
  · exact h.2.2.1 c6a c6b 0 2 rfl rfl (by decide) (by decide) (by decide)
  · exact h.2.2.2 c6a c6d (by decide) (by decide)

end C6

section C7

/-- Walking the declared URLs with the first failure at u after a prefix of
cached-or-fetchable URLs: the loop stops at u with the error naming it, every
prefix URL ends up cached, and bindings already in the cache are neither
dropped nor overwritten (a cached URL is skipped, not re-fetched). -/
lemma fetch_dependencies_prefix_fail (net : NetOracle) (now : Nat) (u e : String)
    (post : List String) (hue : fetch_script_from_url net u = Except.error e) :
    ∀ (pre : List String) (cache : DepCache),
      (∀ v ∈ pre, cacheContains cache v = true ∨
          ∃ c, fetch_script_from_url net v = Except.ok c) →
      cacheContains cache u = false → u ∉ pre →
      ∃ cache1,
        fetch_dependencies net now (pre ++ u :: post) cache =
          (cache1, Except.error ("Failed to fetch dependency " ++ u ++ ": " ++ e)) ∧
        (∀ v ∈ pre, cacheContains cache1 v = true) ∧
        (∀ w, cacheContains cache w = true → cacheContains cache1 w = true) ∧
        (∀ w, cacheContains cache w = true →
            cacheLookup cache1 w = cacheLookup cache w) := by
  intro pre
  induction pre with
  | nil =>
    intro cache _ hu _
    refine ⟨cache, ?_, by simp, fun w h => h, fun w _ => rfl⟩
    rw [List.nil_append]
    unfold fetch_dependencies
    rw [if_neg (by simp [hu]), hue]
  | cons v pre ih =>
    intro cache hpre hu hupre
    have hunv : u ≠ v := by
      intro h
      exact hupre (h ▸ List.mem_cons_self v pre)
    have hupre2 : u ∉ pre := fun h => hupre (List.mem_cons_of_mem v h)
    rw [List.cons_append]
    by_cases hcv : cacheContains cache v = true
    · obtain ⟨cache1, heq, hc1, hmono, hlook⟩ :=
        ih cache (fun w hw => hpre w (List.mem_cons_of_mem v hw)) hu hupre2
      refine ⟨cache1, ?_, ?_, hmono, hlook⟩
      · unfold fetch_dependencies
        rw [if_pos hcv]
        exact heq
      · intro w hw
        rcases List.mem_cons.mp hw with hwv | hwp
        · exact hmono w (hwv ▸ hcv)
        · exact hc1 w hwp
    · have hok : ∃ c, fetch_script_from_url net v = Except.ok c := by
        rcases hpre v (List.mem_cons_self v pre) with hc | hok
        · exact absurd hc hcv
        · exact hok
      obtain ⟨c, hokc⟩ := hok
      have hins : ∀ w, cacheContains
          (cacheInsert cache v { url := v, code := c, last_updated := now }) w =
          ((v = w) || cacheContains cache w) := fun w => cacheContains_insert cache v w _
      have hu' : cacheContains
          (cacheInsert cache v { url := v, code := c, last_updated := now }) u = false := by
        rw [hins]
        simp only [hu, Bool.or_false, decide_eq_false_iff_not]
        exact fun h => hunv h.symm
      have hpre' : ∀ w ∈ pre,
          cacheContains (cacheInsert cache v { url := v, code := c, last_updated := now }) w
            = true ∨ ∃ c2, fetch_script_from_url net w = Except.ok c2 := by
        intro w hw
        rcases hpre w (List.mem_cons_of_mem v hw) with hc | hok2
        · left
          rw [hins]
          simp [hc]
        · right
          exact hok2
      obtain ⟨cache1, heq, hc1, hmono, hlook⟩ :=
        ih (cacheInsert cache v { url := v, code := c, last_updated := now })
          hpre' hu' hupre2
      refine ⟨cache1, ?_, ?_, ?_, ?_⟩
      · unfold fetch_dependencies
        rw [if_neg (by simp [hcv]), hokc]
        exact heq
      · intro w hw
        rcases List.mem_cons.mp hw with hwv | hwp
        · apply hmono
          rw [hins]
          simp [hwv]
        · exact hc1 w hwp
      · intro w hcw
        apply hmono
        rw [hins]
        simp [hcw]
      · intro w hcw
        have hwv : ¬ v = w := by
          intro h
          rw [h] at hcv
          exact hcv hcw
        have h1 : cacheLookup cache1 w =
            cacheLookup (cacheInsert cache v { url := v, code := c, last_updated := now }) w := by
          apply hlook
          rw [hins]
          simp [hcw]
        rw [h1, cacheLookup_insert, if_neg hwv]

/-- C7: when the declared dependency list of the fetched body is pre ++ u ::
post, every URL in pre is already cached or fetchable, and u is the first
fetch failure, add_script_from_url aborts with the error naming u, registers
no script, leaves every previously cached binding untouched (cached URLs are
skipped, not re-fetched), and keeps the dependencies fetched earlier in the
same call in the in-memory cache. -/
theorem c7_dependency_failure (net : NetOracle) (now : Nat) (fid url : String)
    (st : RegistryState) (code : String) (pre post : List String) (u e : String)
    (hnodup : ∀ s ∈ st.scripts, ¬ s.url = some url)
    (hfetch : fetch_script_from_url net url = Except.ok code)
    (hreq : (parse_metadata code).requires = pre ++ u :: post)
    (hpre : ∀ v ∈ pre, cacheContains st.dependencies v = true ∨
        ∃ c, fetch_script_from_url net v = Except.ok c)
    (hu : cacheContains st.dependencies u = false)
    (hupre : u ∉ pre)
    (hue : fetch_script_from_url net u = Except.error e) :
    (add_script_from_url net now fid url st).2 =
      Except.error ("Failed to fetch dependency " ++ u ++ ": " ++ e) ∧
    (add_script_from_url net now fid url st).1.scripts = st.scripts ∧
    (∀ v ∈ pre,
        cacheContains (add_script_from_url net now fid url st).1.dependencies v = true) ∧
    (∀ w, cacheContains st.dependencies w = true →
        cacheLookup (add_script_from_url net now fid url st).1.dependencies w =
          cacheLookup st.dependencies w) := by
  obtain ⟨cache1, heq, hc1, hmono, hlook⟩ :=
    fetch_dependencies_prefix_fail net now u e post hue pre st.dependencies hpre hu hupre
  have hswd : fetch_script_with_dependencies net now fid url st.dependencies =
      (cache1, Except.error ("Failed to fetch dependency " ++ u ++ ": " ++ e)) := by
    unfold fetch_script_with_dependencies
    rw [hfetch]
    dsimp only
    rw [hreq, heq]
  have hany : st.scripts.any (fun s => s.url = some url) = false :=
    List.any_eq_false.mpr (fun s hs => by simpa using hnodup s hs)
  have hadd : add_script_from_url net now fid url st =
      ({ st with dependencies := cache1 },
       Except.error ("Failed to fetch dependency " ++ u ++ ": " ++ e)) := by
    unfold add_script_from_url
    rw [if_neg (by simp [hany]), hswd]
  rw [hadd]
  exact ⟨rfl, rfl, hc1, hlook⟩

/-- Body of the main script of the C7 witness: it requires three
dependencies; the first resolves, the second fails. -/
def c7body : String :=
  "// ==UserScript==\n// @require https://d1.example/a\n// @require https://d2.example/b\n// @require https://d3.example/c\n// ==/UserScript==\nmain();"

/-- Network oracle of the C7 witness. -/
def c7net : NetOracle := fun url =>
  if url = "https://m.example/s" then
    Except.ok { status := 200, statusText := "OK",
                contentType := some "text/javascript", body := c7body }
  else if url = "https://d1.example/a" then
    Except.ok { status := 200, statusText := "OK",
                contentType := some "text/javascript", body := "dep1();" }
  else if url = "https://d2.example/b" then
    Except.error "Network error: connection refused"
  else Except.error "Network error: unreachable"

/-- C7 witness: on an empty registry, adding the main script aborts on the
second dependency with the error naming it; nothing is registered and the
first dependency stays cached. -/
theorem c7_witness :
    (add_script_from_url c7net 7 "f" "https://m.example/s"
        { scripts := [], dependencies := [] }).2 =
      Except.error ("Failed to fetch dependency " ++ "https://d2.example/b" ++ ": " ++
        "Network error: connection refused") ∧
    (add_script_from_url c7net 7 "f" "https://m.example/s"
        { scripts := [], dependencies := [] }).1.scripts = [] ∧
    cacheContains (add_script_from_url c7net 7 "f" "https://m.example/s"
        { scripts := [], dependencies := [] }).1.dependencies "https://d1.example/a" = true := by
  have h := c7_dependency_failure c7net 7 "f" "https://m.example/s"
    { scripts := [], dependencies := [] }
    c7body
    ["https://d1.example/a"] ["https://d3.example/c"]
    "https://d2.example/b" "Network error: connection refused"
    (by simp) rfl (by decide)
    (by
      intro v hv
      rw [List.mem_singleton] at hv
      subst hv
      exact Or.inr ⟨"dep1();", rfl⟩)
    rfl (by decide) rfl
  exact ⟨h.1, h.2.1, h.2.2.1 "https://d1.example/a" (List.mem_singleton.mpr rfl)⟩

end C7

section C3

/-- A successful @require match consumes at least the directive literal, so
the scanner strictly advances. -/
lemma matchRequireAt_length {s : List Char} {url : String} {after : List Char}
    (h : matchRequireAt s = some (url, after)) : after.length < s.length := by
  unfold matchRequireAt at h
  cases hd : dropLit? "@require".data s with
  | none => rw [hd] at h; cases h
  | some s1 =>
    rw [hd] at h
    have hs1 : s1.length + 8 = s.length := dropLit?_length hd
    cases s1 with
    | nil => cases h
    | cons c cs =>
      dsimp only at h
      by_cases hws : isWs c = true
      · rw [if_pos hws] at h
        have hs2 : ((c :: cs).dropWhile isWs).length ≤ (c :: cs).length :=
          (List.dropWhile_sublist isWs).length_le
        cases hd2 : dropLit? "https://".data ((c :: cs).dropWhile isWs) with
        | some s3 =>
          rw [hd2] at h
          dsimp only at h
          have hs3 : s3.length + 8 = ((c :: cs).dropWhile isWs).length := dropLit?_length hd2
          by_cases hemp : (s3.takeWhile (fun x => ¬ isWs x)).isEmpty = true
          · rw [if_pos hemp] at h; cases h
          · rw [if_neg hemp] at h
            injection h with h1
            injection h1 with _ h2
            have : after.length ≤ s3.length := by
              rw [← h2]
              exact (List.dropWhile_sublist _).length_le
            simp only [List.length_cons] at hs1 hs2 hs3 ⊢
            omega
        | none =>
          rw [hd2] at h
          cases hd3 : dropLit? "http://".data ((c :: cs).dropWhile isWs) with
          | some s3 =>
            rw [hd3] at h
            dsimp only at h
            have hs3 : s3.length + 7 = ((c :: cs).dropWhile isWs).length := dropLit?_length hd3
            by_cases hemp : (s3.takeWhile (fun x => ¬ isWs x)).isEmpty = true
            · rw [if_pos hemp] at h; cases h
            · rw [if_neg hemp] at h
              injection h with h1
              injection h1 with _ h2
              have : after.length ≤ s3.length := by
                rw [← h2]
                exact (List.dropWhile_sublist _).length_le
              simp only [List.length_cons] at hs1 hs2 hs3 ⊢
              omega
          | none =>
            rw [hd3] at h
            dsimp only at h
            cases h
      · rw [if_neg hws] at h
        cases h

/-- The fuel argument of the scanner is irrelevant once it covers the input
length. -/
lemma scanRequiresFuel_congr : ∀ (f g : Nat) (s : List Char),
    s.length ≤ f → s.length ≤ g → scanRequiresFuel f s = scanRequiresFuel g s := by
  intro f
  induction f with
  | zero =>
    intro g s hf _
    have : s = [] := List.length_eq_zero.mp (Nat.le_zero.mp hf)
    subst this
    cases g <;> rfl
  | succ f ih =>
    intro g s hf hg
    cases s with
    | nil => cases g <;> rfl
    | cons c rest =>
      cases g with
      | zero => simp at hg
      | succ g =>
        simp only [List.length_cons, Nat.succ_le_succ_iff] at hf hg
        show scanRequiresFuel (f + 1) (c :: rest) = scanRequiresFuel (g + 1) (c :: rest)
        cases hm : matchRequireAt (c :: rest) with
        | none => simp only [scanRequiresFuel, hm]; exact ih g rest hf hg
        | some p =>
          obtain ⟨url, after⟩ := p
          have hlen : after.length < rest.length + 1 := matchRequireAt_length hm
          simp only [scanRequiresFuel, hm]
          rw [ih g after (by omega) (by omega)]

/-- Scanner step on a position with no match. -/
lemma scanRequires_cons_none {c : Char} {rest : List Char}
    (h : matchRequireAt (c :: rest) = none) :
    scanRequires (c :: rest) = scanRequires rest := by
  show scanRequiresFuel (c :: rest).length (c :: rest) = scanRequiresFuel rest.length rest
  simp only [List.length_cons, scanRequiresFuel, h]

/-- Scanner step on a position with a match: emit the capture and resume
after the match. -/
lemma scanRequires_cons_some {c : Char} {rest : List Char} {url : String}
    {after : List Char} (h : matchRequireAt (c :: rest) = some (url, after)) :
    scanRequires (c :: rest) = url :: scanRequires after := by
  have hlen : after.length < rest.length + 1 := matchRequireAt_length h
  show scanRequiresFuel (c :: rest).length (c :: rest) =
    url :: scanRequiresFuel after.length after
  simp only [List.length_cons, scanRequiresFuel, h]
  rw [scanRequiresFuel_congr rest.length after.length after (by omega) (le_refl _)]

/-- A position whose head is not the at sign never starts an @require
match. -/
lemma matchRequireAt_not_at {c : Char} (h : ¬ c = '@') (s : List Char) :
    matchRequireAt (c :: s) = none := by
  unfold matchRequireAt
  have hd : dropLit? "@require".data (c :: s) = none := by
    show dropLit? ('@' :: "require".data) (c :: s) = none
    unfold dropLit?
    rw [if_neg (fun hh => h hh.symm)]
  rw [hd]

/-- takeWhile of non-whitespace over a run of non-whitespace characters
followed by a whitespace character takes exactly the run. -/
lemma takeWhile_nonws_append {w : List Char} {x : Char} {rest : List Char}
    (hok : ∀ c ∈ w, isWs c = false) (hx : isWs x = true) :
    (w ++ x :: rest).takeWhile (fun x => ¬ isWs x) = w := by
  induction w with
  | nil =>
    rw [List.nil_append, List.takeWhile_cons, if_neg (by simp [hx])]
  | cons c w ih =>
    rw [List.cons_append, List.takeWhile_cons,
      if_pos (by simp [hok c (List.mem_cons_self c w)])]
    rw [ih (fun d hd => hok d (List.mem_cons_of_mem c hd))]

/-- dropWhile of non-whitespace over the same shape drops exactly the run. -/
lemma dropWhile_nonws_append {w : List Char} {x : Char} {rest : List Char}
    (hok : ∀ c ∈ w, isWs c = false) (hx : isWs x = true) :
    (w ++ x :: rest).dropWhile (fun x => ¬ isWs x) = x :: rest := by
  induction w with
  | nil =>
    rw [List.nil_append, List.dropWhile_cons, if_neg (by simp [hx])]
  | cons c w ih =>
    rw [List.cons_append, List.dropWhile_cons,
      if_pos (by simp [hok c (List.mem_cons_self c w)])]
    exact ih (fun d hd => hok d (List.mem_cons_of_mem c hd))

/-- dropWhile of whitespace leaves a list with no whitespace characters
untouched. -/
lemma dropWhile_ws_eq_self {l : List Char} (h : ∀ c ∈ l, isWs c = false) :
    l.dropWhile isWs = l := by
  cases l with
  | nil => rfl
  | cons c rest =>
    rw [List.dropWhile_cons, if_neg (by simp [h c (List.mem_cons_self c rest)])]

/-- Trimming a list with no whitespace characters is the identity. -/
lemma trimWs_eq_self {l : List Char} (h : ∀ c ∈ l, isWs c = false) : trimWs l = l := by
  unfold trimWs
  rw [dropWhile_ws_eq_self h]
  rw [dropWhile_ws_eq_self (fun c hc => h c (List.mem_reverse.mp hc))]
  exact List.reverse_reverse l

end C3

/-- One rendered @require line of a header: the URL is https:// followed by
the tail w. -/
def requireLine (w : List Char) : List Char :=
  "// @require https://".data ++ (w ++ ['\n'])

/-- The rendered @require lines of a header, in declaration order. -/
def requireLines : List (List Char) → List Char
  | [] => []
  | w :: ws => requireLine w ++ requireLines ws

/-- A whole script text whose header block consists exactly of the given
@require lines. -/
def renderHeader (ws : List (List Char)) : String :=
  String.mk ("// ==UserScript==".data ++
    '\n' :: (requireLines ws ++ "// ==/UserScript==".data))

/-- The @require directive matches at the start of a rendered line body and
captures exactly its URL, leaving the newline and the remaining lines. -/
lemma matchRequireAt_line {w : List Char} (hne : w ≠ []) (hok : ∀ c ∈ w, isWs c = false)
    (rest : List Char) :
    matchRequireAt ("@require".data ++ (' ' :: ("https://".data ++ (w ++ '\n' :: rest)))) =
      some (String.mk ("https://".data ++ w), '\n' :: rest) := by
  have hall : ∀ c ∈ "https://".data ++ w, isWs c = false := by
    intro c hc
    rcases List.mem_append.mp hc with h1 | h2
    · have hpre : ∀ c ∈ "https://".data, isWs c = false := by decide
      exact hpre c h1
    · exact hok c h2
  show (if ((w ++ '\n' :: rest).takeWhile (fun x => ¬ isWs x)).isEmpty = true then none
        else some (String.mk (trimWs ("https://".data ++
                 (w ++ '\n' :: rest).takeWhile (fun x => ¬ isWs x))),
               (w ++ '\n' :: rest).dropWhile (fun x => ¬ isWs x)))
      = some (String.mk ("https://".data ++ w), '\n' :: rest)
  rw [takeWhile_nonws_append hok (by decide), dropWhile_nonws_append hok (by decide)]
  rw [if_neg (by simp [hne])]
  rw [trimWs_eq_self hall]

/-- Reshaping a rendered line followed by anything into its scan spine. -/
lemma requireLine_shape (w : List Char) (rest : List Char) :
    requireLine w ++ rest =
      '/' :: '/' :: ' ' ::
        ("@require".data ++ (' ' :: ("https://".data ++ (w ++ '\n' :: rest)))) := by
  unfold requireLine
  simp only [List.append_assoc, List.singleton_append]
  rfl

/-- Scanning a rendered line emits exactly its URL and resumes after the
line. -/
lemma scanRequires_line {w : List Char} (hne : w ≠ []) (hok : ∀ c ∈ w, isWs c = false)
    (rest : List Char) :
    scanRequires (requireLine w ++ rest) =
      String.mk ("https://".data ++ w) :: scanRequires rest := by
  rw [requireLine_shape]
  rw [scanRequires_cons_none (matchRequireAt_not_at (by decide) _)]
  rw [scanRequires_cons_none (matchRequireAt_not_at (by decide) _)]
  rw [scanRequires_cons_none (matchRequireAt_not_at (by decide) _)]
  have hm : matchRequireAt
      ('@' :: ("require".data ++ (' ' :: ("https://".data ++ (w ++ '\n' :: rest))))) =
      some (String.mk ("https://".data ++ w), '\n' :: rest) :=
    matchRequireAt_line hne hok rest
  rw [show ("@require".data ++ (' ' :: ("https://".data ++ (w ++ '\n' :: rest)))) =
        '@' :: ("require".data ++ (' ' :: ("https://".data ++ (w ++ '\n' :: rest))))
      from rfl]
  rw [scanRequires_cons_some hm]
  rw [scanRequires_cons_none (matchRequireAt_not_at (by decide) _)]

/-- Scanning all rendered lines emits the URLs in declaration order, one per
line, duplicates included. -/
lemma scanRequires_requireLines : ∀ (ws : List (List Char)),
    (∀ w ∈ ws, w ≠ []) → (∀ w ∈ ws, ∀ c ∈ w, isWs c = false) →
    scanRequires (requireLines ws) =
      ws.map (fun w => String.mk ("https://".data ++ w)) := by
  intro ws
  induction ws with
  | nil => intro _ _; rfl
  | cons w ws ih =>
    intro hne hok
    show scanRequires (requireLine w ++ requireLines ws) = _
    rw [scanRequires_line (hne w (List.mem_cons_self w ws)) (hok w (List.mem_cons_self w ws))]
    rw [ih (fun v hv => hne v (List.mem_cons_of_mem w hv))
        (fun v hv => hok v (List.mem_cons_of_mem w hv))]
    rfl

/-- The equals sign does not occur in a rendered line whose URL tail avoids
it. -/
lemma eq_not_mem_requireLine {w : List Char} (hok : ∀ c ∈ w, ¬ c = '=') :
    '=' ∉ requireLine w := by
  unfold requireLine
  intro hmem
  rcases List.mem_append.mp hmem with h1 | h2
  · exact absurd h1 (by decide)
  · rcases List.mem_append.mp h2 with h3 | h4
    · exact hok '=' h3 rfl
    · exact absurd h4 (by decide)

/-- The equals sign does not occur in any rendered line. -/
lemma eq_not_mem_requireLines : ∀ {ws : List (List Char)},
    (∀ w ∈ ws, ∀ c ∈ w, ¬ c = '=') → '=' ∉ requireLines ws := by
  intro ws
  induction ws with
  | nil => intro _ h; cases h
  | cons w ws ih =>
    intro hok hmem
    rw [show requireLines (w :: ws) = requireLine w ++ requireLines ws from rfl] at hmem
    rcases List.mem_append.mp hmem with h1 | h2
    · exact eq_not_mem_requireLine (hok w (List.mem_cons_self w ws)) h1
    · exact ih (fun v hv => hok v (List.mem_cons_of_mem w hv)) h2

/-- A nonempty rendering is never the empty list. -/
lemma requireLines_ne_nil {w : List Char} {ws : List (List Char)} :
    requireLines (w :: ws) ≠ [] := by
  show requireLine w ++ requireLines ws ≠ []
  intro h
  rw [List.append_eq_nil] at h
  have h1 : ("// @require https://".data : List Char) ++ (w ++ ['\n']) = [] := h.1
  rw [List.append_eq_nil] at h1
  exact absurd h1.1 (by decide)

/-- Every rendered line block ends with a newline. -/
lemma requireLines_getLast? : ∀ {ws : List (List Char)}, ws ≠ [] →
    (requireLines ws).getLast? = some '\n' := by
  intro ws
  induction ws with
  | nil => intro h; exact absurd rfl h
  | cons w ws ih =>
    intro _
    show (requireLine w ++ requireLines ws).getLast? = some '\n'
    cases ws with
    | nil =>
      show (requireLine w ++ []).getLast? = some '\n'
      rw [List.append_nil]
      unfold requireLine
      rw [show "// @require https://".data ++ (w ++ ['\n']) =
            ("// @require https://".data ++ w) ++ ['\n'] from (List.append_assoc _ _ _).symm]
      exact List.getLast?_concat _
    | cons w2 ws2 =>
      rw [List.getLast?_append_of_ne_nil _ requireLines_ne_nil]
      exact ih (by simp)

/-- The close marker cannot match at any position inside the block: a match
needs a double slash followed, after whitespace, by an equals sign, and the
block contains no equals sign while the close line that follows it starts
with a slash. -/
lemma matchMarkerAt_close_none : ∀ {b2 tail : List Char},
    b2 ≠ [] → '=' ∉ b2 → b2.getLast? = some '\n' → (∃ t, tail = '/' :: t) →
    matchMarkerAt closeMarker (b2 ++ tail) = none := by
  intro b2 tail hne hmem hlast htail
  obtain ⟨t, ht⟩ := htail
  cases b2 with
  | nil => exact absurd rfl hne
  | cons c b2 =>
    by_cases hc : c = '/'
    case neg =>
      unfold matchMarkerAt
      have hdl : dropLit? ['/', '/'] (c :: (b2 ++ tail)) = none := by
        unfold dropLit?
        rw [if_neg (fun hh => hc hh.symm)]
      rw [show ((c :: b2) ++ tail) = c :: (b2 ++ tail) from rfl, hdl]
    case pos =>
      subst hc
      cases b2 with
      | nil => exact absurd hlast (by decide)
      | cons d b3 =>
        by_cases hd : d = '/'
        case neg =>
          unfold matchMarkerAt
          have hdl : dropLit? ['/', '/'] ('/' :: d :: (b3 ++ tail)) = none := by
            show dropLit? ['/'] (d :: (b3 ++ tail)) = none
            unfold dropLit?
            rw [if_neg (fun hh => hd hh.symm)]
          rw [show (('/' :: d :: b3) ++ tail) = '/' :: d :: (b3 ++ tail) from rfl, hdl]
        case pos =>
          subst hd
          show dropLit? closeMarker ((b3 ++ tail).dropWhile isWs) = none
          rw [List.dropWhile_append]
          by_cases hb3 : (b3.dropWhile isWs).isEmpty = true
          · rw [if_pos hb3, ht, List.dropWhile_cons, if_neg (by decide)]
            show dropLit? ('=' :: "=/UserScript==".data) ('/' :: t) = none
            unfold dropLit?
            rw [if_neg (by decide)]
          · rw [if_neg hb3]
            cases hdw : b3.dropWhile isWs with
            | nil => rw [hdw] at hb3; exact absurd rfl hb3
            | cons k ks =>
              have hk : k ∈ b3 := (List.dropWhile_sublist isWs).subset
                (by rw [hdw]; exact List.mem_cons_self k ks)
              have hkne : ¬ ('=' : Char) = k := by
                intro hh
                exact hmem (by
                  rw [hh]
                  exact List.mem_cons_of_mem '/' (List.mem_cons_of_mem '/' hk))
              show dropLit? ('=' :: "=/UserScript==".data) (k :: (ks ++ tail)) = none
              unfold dropLit?
              rw [if_neg hkne]

/-- The block scan finds the first close-marker position: when no position
inside b matches the close marker and the tail starts with one, the captured
block is exactly b. -/
lemma grabBlock_append (tail : List Char)
    (hclose : (matchMarkerAt closeMarker tail).isSome = true) :
    ∀ (b : List Char),
      (∀ b1 b2, b = b1 ++ b2 → b2 ≠ [] → matchMarkerAt closeMarker (b2 ++ tail) = none) →
      grabBlock (b ++ tail) = some b := by
  intro b
  induction b with
  | nil =>
    intro _
    rw [List.nil_append]
    cases tail with
    | nil => exact absurd hclose (by decide)
    | cons c t =>
      unfold grabBlock
      rw [if_pos hclose]
  | cons c b' ih =>
    intro h
    have h0 : matchMarkerAt closeMarker ((c :: b') ++ tail) = none :=
      h [] (c :: b') rfl (by simp)
    rw [show ((c :: b') ++ tail) = c :: (b' ++ tail) from rfl] at h0 ⊢
    unfold grabBlock
    rw [if_neg (by simp [h0])]
    rw [ih (fun b1 b2 hb hbne => h (c :: b1) b2 (by rw [hb]; rfl) hbne)]

/-- Given equals-free URL tails, the captured block is the newline plus the
rendered lines: the earliest close-marker match is the real close line. -/
lemma grabBlock_block (ws : List (List Char))
    (hok : ∀ w ∈ ws, ∀ c ∈ w, ¬ c = '=') :
    grabBlock ('\n' :: (requireLines ws ++ "// ==/UserScript==".data)) =
      some ('\n' :: requireLines ws) := by
  rw [show ('\n' :: (requireLines ws ++ "// ==/UserScript==".data)) =
        ('\n' :: requireLines ws) ++ "// ==/UserScript==".data from rfl]
  apply grabBlock_append
  · decide
  · intro b1 b2 hb hbne
    apply matchMarkerAt_close_none hbne
    · intro hmem
      have hmem2 : '=' ∈ '\n' :: requireLines ws := by
        rw [hb]
        exact List.mem_append_right b1 hmem
      rcases List.mem_cons.mp hmem2 with h1 | h2
      · exact absurd h1 (by decide)
      · exact eq_not_mem_requireLines hok h2
    · have hlast : ('\n' :: requireLines ws).getLast? = some '\n' := by
        cases ws with
        | nil => rfl
        | cons w ws2 =>
          rw [show ('\n' :: requireLines (w :: ws2)) =
                ['\n'] ++ requireLines (w :: ws2) from rfl]
          rw [List.getLast?_append_of_ne_nil _ requireLines_ne_nil]
          exact requireLines_getLast? (by simp)
      rw [hb, List.getLast?_append_of_ne_nil _ hbne] at hlast
      exact hlast
    · exact ⟨_, rfl⟩

/-- The block regex finds its open marker at the very start of the rendered
header, by direct computation on the concrete prefix. -/
lemma findOpen_renderHeader (ws : List (List Char)) :
    findOpen (renderHeader ws).data =
      some ('\n' :: (requireLines ws ++ "// ==/UserScript==".data)) := rfl

/-- C3 counterexample: a header with the same @require URL on two lines
yields that URL twice - the parser keeps declaration order but does not
deduplicate, refuting the claim that a URL occurring in several @require
lines occurs only once in the resulting list. -/
theorem c3_counterexample :
    (parse_metadata ("// ==UserScript==\n// @require https://a.example/x\n// @require https://a.example/x\n// ==/UserScript==\nmain();")).requires
      = ["https://a.example/x", "https://a.example/x"] ∧
    ¬ ((parse_metadata ("// ==UserScript==\n// @require https://a.example/x\n// @require https://a.example/x\n// ==/UserScript==\nmain();")).requires).Nodup := by
  exact ⟨by decide, by decide⟩

/-- C3 (amended): for every header whose block consists of @require lines
with nonempty, whitespace-free, equals-free URL tails, the parsed dependency
list is exactly the declared URLs in declaration order, one entry per line -
duplicates included (they are not removed). -/
theorem c3_requires_declaration_order (ws : List (List Char))
    (hne : ∀ w ∈ ws, w ≠ [])
    (hok : ∀ w ∈ ws, ∀ c ∈ w, isWs c = false ∧ ¬ c = '=') :
    (parse_metadata (renderHeader ws)).requires =
      ws.map (fun w => String.mk ("https://".data ++ w)) := by
  unfold parse_metadata
  rw [findOpen_renderHeader]
  dsimp only
  rw [grabBlock_block ws (fun w hw c hc => (hok w hw c hc).2)]
  dsimp only
  rw [scanRequires_cons_none (matchRequireAt_not_at (by decide) _)]
  exact scanRequires_requireLines ws hne (fun w hw c hc => (hok w hw c hc).1)

/-- C3 witness: three @require lines, the first and third declaring the same
URL, parse to the three URLs in order with the duplicate kept. -/
theorem c3_witness :
    (parse_metadata (renderHeader
        ["a.example/x".data, "b.example/y".data, "a.example/x".data])).requires =
      ["a.example/x".data, "b.example/y".data, "a.example/x".data].map
        (fun w => String.mk ("https://".data ++ w)) :=
  c3_requires_declaration_order _ (by decide) (by decide)
